import Mathlib

/-!
# Verification of the envcheck parsing-and-validation core

A shallow embedding of the envcheck repository's core (`src/index.js`):
the `.env` line parser (`parseEnv`, `parseValue`), the type validators,
the file reader, the comparator (`compare`), the validator (`validate`)
and the checker (`check`), together with theorems settling the frozen
claims about this code.

Strings are modelled as `List Char` (one JS string character per list
element).  The file system is modelled as a function from paths to
optional file contents.  The host platform's URL constructor and JSON
parser (used by the `url` and `json` type validators, which are not code
of this repository) are modelled as oracle parameters.
-/

set_option maxHeartbeats 1000000

namespace Envcheck

/-- A JS string, modelled as its list of characters. -/
abbrev Str := List Char

/-- Whitespace characters recognised by JS `String.prototype.trim`
(restricted to the ASCII range, which is all the repository exercises). -/
def isJsWs (c : Char) : Bool :=
  c = ' ' || c = '\t' || c = '\n' || c = '\r' || c = '\x0b' || c = '\x0c'

/-- Remove leading whitespace (left half of JS `trim`). -/
def trimLeft (s : Str) : Str := s.dropWhile isJsWs

/-- Remove trailing whitespace (right half of JS `trim`). -/
def trimRight (s : Str) : Str := (s.reverse.dropWhile isJsWs).reverse

/-- JS `String.prototype.trim`. -/
def jsTrim (s : Str) : Str := trimRight (trimLeft s)

/-- JS `content.split('\n')`: split a string at every
newline character; always returns at least one (possibly empty) line. -/
def splitLines : Str → List Str
  | [] => [[]]
  | c :: rest =>
    if c = '\n' then [] :: splitLines rest
    else
      match splitLines rest with
      | [] => [[c]]
      | l :: ls => (c :: l) :: ls

/-- JS `line.indexOf('=')` restricted to a single character: index of the
first occurrence, `none` when absent (JS returns `-1`). -/
def indexOfChar (c : Char) : Str → Option Nat
  | [] => none
  | x :: xs => if x = c then some 0 else (indexOfChar c xs).map (· + 1)

/-- JS `value.indexOf(' #')`: index of the first occurrence of the
two-character sequence space-then-hash, `none` when absent. -/
def findSpaceHash : Str → Option Nat
  | [] => none
  | c :: rest =>
    if c = ' ' ∧ rest.head? = some '#' then some 0
    else (findSpaceHash rest).map (· + 1)

/-- One pass of JS `s.replace(/ab/g, r)` for a two-character pattern
`a b` replaced by the single character `r`: left-to-right scan over
non-overlapping occurrences. -/
def replSeq (a b r : Char) : Str → Str
  | x :: y :: rest =>
    if x = a ∧ y = b then r :: replSeq a b r rest
    else x :: replSeq a b r (y :: rest)
  | s => s

/-- The escape-sequence substitution chain applied to the inside of a
double-quoted value, in the source's order:
`\n`, `\r`, `\t`, `\\`, `\"`. -/
def applyEscapes (s : Str) : Str :=
  replSeq '\\' '"' '"'
    (replSeq '\\' '\\' '\\'
      (replSeq '\\' 't' '\t'
        (replSeq '\\' 'r' '\r'
          (replSeq '\\' 'n' '\n' s))))

/-! ## Association lists (JS object semantics)

JS objects keep first-insertion key order; assigning to an existing key
overwrites the value in place.  `alGet` is property lookup, `alUpsert`
is property assignment, and `Object.keys` is `(·.map Prod.fst)`. -/

/-- JS property read `obj[k]` (`none` = `undefined`). -/
def alGet (k : Str) : List (Str × α) → Option α
  | [] => none
  | (k', v) :: rest => if k' = k then some v else alGet k rest

/-- JS property write `obj[k] = v`: overwrite in place, else append. -/
def alUpsert (k : Str) (v : α) : List (Str × α) → List (Str × α)
  | [] => [(k, v)]
  | (k', v') :: rest =>
    if k' = k then (k, v) :: rest else (k', v') :: alUpsert k v rest

/-- JS object spread `{...base, ...extra}`: assign every entry of
`extra` onto `base`, later keys winning. -/
def alMerge (base extra : List (Str × α)) : List (Str × α) :=
  extra.foldl (fun m kv => alUpsert kv.1 kv.2 m) base

/-! ## The line parser (`parseEnv`) -/

/-- An entry of the parser's `errors`/`warnings` arrays:
`{line, message, content}` (the synthetic file-not-found error carries
no line and no content, hence the options). -/
structure ParseIssue where
  line : Option Nat
  message : Str
  content : Option Str
deriving DecidableEq

/-- The record returned by `parseEnv`. -/
structure ParseResult where
  vars : List (Str × Str)
  errors : List ParseIssue
  warnings : List ParseIssue
  lineInfo : List (Str × Nat)
  typeHints : List (Str × Str)
deriving DecidableEq

/-- The result of `parseEnv` plus the `exists`/`path` metadata added by
`readEnvFile`. -/
structure EnvFile extends ParseResult where
  exists_ : Bool
  path : Str
deriving DecidableEq

/-- Render a JS number interpolation `${n}` where `n` may be
`undefined`. -/
def optNatStr : Option Nat → Str
  | some n => (Nat.repr n).data
  | none => "undefined".data

def missingEqMsg : Str := "Invalid syntax: missing '=' sign".data
def emptyNameMsg : Str := "Empty variable name".data
def unusualMsg (k : Str) : Str :=
  "Variable name '".data ++ k ++ "' contains unusual characters".data
def dupMsg (k : Str) (prev : Option Nat) : Str :=
  "Duplicate variable '".data ++ k ++ "' (previous at line ".data ++
    optNatStr prev ++ ")".data

/-- JS regex `\w`: `[A-Za-z0-9_]`. -/
def isWordChar (c : Char) : Bool := c.isAlpha || c.isDigit || c = '_'

/-- The key-name test `/^[A-Za-z_][A-Za-z0-9_]*$/`. -/
def validKeyName : Str → Bool
  | [] => false
  | c :: rest => (c.isAlpha || c = '_') && rest.all isWordChar

/-- Case-insensitive literal prefix match; returns the remainder on
success. -/
def icPrefix : Str → Str → Option Str
  | [], s => some s
  | _ :: _, [] => none
  | p :: ps, c :: cs => if c.toLower = p.toLower then icPrefix ps cs else none

/-- The annotation-comment regex
`/^#\s*(?:type:|@type)\s*(\w+)/i` applied to a trimmed comment line:
returns the captured word lowercased. -/
def typeHintOf (trimmed : Str) : Option Str :=
  match trimmed with
  | '#' :: rest =>
    let r1 := rest.dropWhile isJsWs
    match (icPrefix "type:".data r1).orElse (fun _ => icPrefix "@type".data r1) with
    | none => none
    | some r2 =>
      let w := (r2.dropWhile isJsWs).takeWhile isWordChar
      if w = [] then none else some (w.map Char.toLower)
  | _ => none

/-! ## Value resolution (`parseValue`) -/

/-- The inline-comment removal step: cut at the first space+`#`. -/
def stripInline (raw : Str) : Str :=
  match findSpaceHash raw with
  | some i => raw.take i
  | none => raw

/-- The comment phase of `parseValue`: the source tests
`value.startsWith('"')` / `value.startsWith("'")` on the *raw,
untrimmed* value and strips inline comments only when neither holds. -/
def commentPhase (raw : Str) : Str :=
  if raw.head? = some '"' || raw.head? = some '\'' then raw
  else stripInline raw

/-- The quote phase of `parseValue`: strip a surrounding quote pair
(`value.slice(1, -1)`), applying escape substitution when the trimmed
raw value starts with a double quote. -/
def quotePhase (v : Str) (raw : Str) : Str :=
  if (v.head? = some '"' && v.getLast? = some '"')
      || (v.head? = some '\'' && v.getLast? = some '\'') then
    let inner := (v.drop 1).dropLast
    if (jsTrim raw).head? = some '"' then applyEscapes inner else inner
  else v

/-- The source's `parseValue(raw)`: inline-comment removal, trim, then
quote handling. -/
def parseValue (raw : Str) : Str :=
  quotePhase (jsTrim (commentPhase raw)) raw

/-! ## The line loop of `parseEnv` -/

/-- The mutable state threaded through `parseEnv`'s loop: the result
object under construction plus the pending type hint. -/
structure PState where
  vars : List (Str × Str)
  errors : List ParseIssue
  warnings : List ParseIssue
  lineInfo : List (Str × Nat)
  typeHints : List (Str × Str)
  pending : Option Str

/-- The body of `parseEnv`'s `for` loop for one line. -/
def processLine (st : PState) (lineNum : Nat) (line : Str) : PState :=
  let trimmed := jsTrim line
  if trimmed.head? = some '#' then
    match typeHintOf trimmed with
    | some h => { st with pending := some h }
    | none => st
  else if trimmed = [] then
    { st with pending := none }
  else
    match indexOfChar '=' line with
    | none =>
      { st with errors := st.errors ++ [⟨some lineNum, missingEqMsg, some line⟩] }
    | some eqIndex =>
      let key := jsTrim (line.take eqIndex)
      let rawValue := line.drop (eqIndex + 1)
      if key = [] then
        { st with errors := st.errors ++ [⟨some lineNum, emptyNameMsg, some line⟩] }
      else
        let st1 :=
          if validKeyName key then st
          else { st with warnings := st.warnings ++ [⟨some lineNum, unusualMsg key, some line⟩] }
        let st2 :=
          if (alGet key st1.vars).isSome then
            { st1 with warnings :=
                st1.warnings ++ [⟨some lineNum, dupMsg key (alGet key st1.lineInfo), some line⟩] }
          else st1
        let value := parseValue rawValue
        let st3 := { st2 with
          vars := alUpsert key value st2.vars,
          lineInfo := alUpsert key lineNum st2.lineInfo }
        match st3.pending with
        | some h => { st3 with typeHints := alUpsert key h st3.typeHints, pending := none }
        | none => st3

/-- Run the loop from line number `n` over the remaining lines. -/
def parseLinesFrom (st : PState) (n : Nat) : List Str → PState
  | [] => st
  | l :: ls => parseLinesFrom (processLine st n l) (n + 1) ls

/-- The source's `parseEnv(content)` (exported as `parse`): split on newlines and run
the line loop. -/
def parseEnv (content : Str) : ParseResult :=
  let st := parseLinesFrom ⟨[], [], [], [], [], none⟩ 1 (splitLines content)
  ⟨st.vars, st.errors, st.warnings, st.lineInfo, st.typeHints⟩

/-! ## The file reader -/

/-- A snapshot of the file system: contents by path.  (`path.resolve` is
modelled as the identity; paths are opaque names here.) -/
abbrev FileSys := Str → Option Str

def fileNotFoundMsg (p : Str) : Str := "File not found: ".data ++ p

/-- The source's `readEnvFile(filePath)`. -/
def readEnvFile (fs : FileSys) (filePath : Str) : EnvFile :=
  match fs filePath with
  | none =>
    { vars := [], errors := [⟨none, fileNotFoundMsg filePath, none⟩],
      warnings := [], lineInfo := [], typeHints := [],
      exists_ := false, path := filePath }
  | some content =>
    let r := parseEnv content
    { r with exists_ := true, path := filePath }

/-! ## Type validators

`url` delegates to the host's `URL` constructor and `json` to the host's
`JSON.parse`; neither is code of this repository, so they are modelled
as boolean oracles collected in `Ext`.  All other validators are
translated in full. -/

/-- The oracles for the two host-platform parsers used by the `url` and
`json` validators (`new URL(value)` succeeding, `JSON.parse(value)`
succeeding). -/
structure Ext where
  urlValid : Str → Bool
  jsonValid : Str → Bool

/-- The `{valid, message}` record returned by a type validator. -/
structure TypeResult where
  valid : Bool
  message : Option Str
deriving DecidableEq

def urlMsg : Str := "must be a valid URL".data
def portMsg : Str := "must be a valid port number (1-65535)".data
def booleanMsg : Str := "must be a boolean (true/false/1/0/yes/no)".data
def emailMsg : Str := "must be a valid email address".data
def numberMsg : Str := "must be a number".data
def integerMsg : Str := "must be an integer".data
def jsonMsg : Str := "must be valid JSON".data
def uuidMsg : Str := "must be a valid UUID".data

/-- JS `parseInt(value, 10)`: skip leading whitespace, optional sign,
then a nonempty digit run (`none` = `NaN`).  Modelled with exact
integers; the float rounding of huge inputs never changes a validator's
verdict in this code. -/
def jsParseInt (s : Str) : Option Int :=
  let t := s.dropWhile isJsWs
  let sign : Int := match t.head? with | some '-' => -1 | _ => 1
  let t' := match t.head? with
    | some '-' => t.tail
    | some '+' => t.tail
    | _ => t
  let ds := t'.takeWhile Char.isDigit
  if ds = [] then none
  else some (sign * (ds.foldl (fun n c => n * 10 + (c.toNat - '0'.toNat)) 0 : Nat))

/-- JS `String(num)` for an integer number. -/
def intRepr (i : Int) : Str := (Int.repr i).data

/-- Whether JS `parseFloat(s)` returns `NaN`: after leading whitespace
and an optional sign there is neither an `Infinity` keyword nor a digit
(possibly after a decimal point). -/
def jsParseFloatIsNaN (s : Str) : Bool :=
  let t := s.dropWhile isJsWs
  let u := match t.head? with
    | some '-' => t.tail
    | some '+' => t.tail
    | _ => t
  ¬("Infinity".data.isPrefixOf u
    || (match u with
        | c :: _ => c.isDigit
        | [] => false)
    || (match u with
        | '.' :: c :: _ => c.isDigit
        | _ => false))

/-- The source's `typeValidators.url`. -/
def urlValidator (ext : Ext) (value : Str) : TypeResult :=
  if value = [] then ⟨true, none⟩
  else if ext.urlValid value then ⟨true, none⟩
  else ⟨false, some urlMsg⟩

/-- The source's `typeValidators.port`. -/
def portValidator (value : Str) : TypeResult :=
  if value = [] then ⟨true, none⟩
  else
    match jsParseInt value with
    | none => ⟨false, some portMsg⟩
    | some num =>
      if num < 1 ∨ 65535 < num ∨ intRepr num ≠ value then ⟨false, some portMsg⟩
      else ⟨true, none⟩

/-- The source's `typeValidators.boolean` (and its alias `bool`). -/
def booleanValidator (value : Str) : TypeResult :=
  if value = [] then ⟨true, none⟩
  else
    let lower := value.map Char.toLower
    if lower = "true".data ∨ lower = "false".data ∨ lower = "1".data ∨
        lower = "0".data ∨ lower = "yes".data ∨ lower = "no".data ∨
        lower = "on".data ∨ lower = "off".data then ⟨true, none⟩
    else ⟨false, some booleanMsg⟩

/-- Split at the first occurrence of a character. -/
def splitOnceAt (c : Char) : Str → Option (Str × Str)
  | [] => none
  | x :: xs =>
    if x = c then some ([], xs)
    else (splitOnceAt c xs).map (fun p => (x :: p.1, p.2))

/-- The email regex `/^[^\s@]+@[^\s@]+\.[^\s@]+$/`: exactly one `@`, a
nonempty whitespace-free local part, and a whitespace-free domain with
an interior dot. -/
def emailRegexTest (s : Str) : Bool :=
  match splitOnceAt '@' s with
  | none => false
  | some (a, rest) =>
    a ≠ [] && a.all (fun c => !isJsWs c) &&
    !rest.contains '@' && rest.all (fun c => !isJsWs c) &&
    ((rest.drop 1).dropLast.contains '.')

/-- The source's `typeValidators.email`. -/
def emailValidator (value : Str) : TypeResult :=
  if value = [] then ⟨true, none⟩
  else if emailRegexTest value then ⟨true, none⟩
  else ⟨false, some emailMsg⟩

/-- The source's `typeValidators.number`: `isNaN(parseFloat(value))` is the entire
test. -/
def numberValidator (value : Str) : TypeResult :=
  if value = [] then ⟨true, none⟩
  else if jsParseFloatIsNaN value then ⟨false, some numberMsg⟩
  else ⟨true, none⟩

/-- The source's `typeValidators.integer` (and its alias `int`). -/
def integerValidator (value : Str) : TypeResult :=
  if value = [] then ⟨true, none⟩
  else
    match jsParseInt value with
    | none => ⟨false, some integerMsg⟩
    | some num =>
      if intRepr num ≠ value then ⟨false, some integerMsg⟩
      else ⟨true, none⟩

/-- The source's `typeValidators.string` and `typeValidators.str`. -/
def stringValidator (_value : Str) : TypeResult := ⟨true, none⟩

/-- The source's `typeValidators.json`. -/
def jsonValidator (ext : Ext) (value : Str) : TypeResult :=
  if value = [] then ⟨true, none⟩
  else if ext.jsonValid value then ⟨true, none⟩
  else ⟨false, some jsonMsg⟩

def isHexDigit (c : Char) : Bool :=
  c.isDigit || ('a' ≤ c && c ≤ 'f') || ('A' ≤ c && c ≤ 'F')

/-- Consume exactly `n` hex digits. -/
def hexRun : Nat → Str → Option Str
  | 0, s => some s
  | n + 1, c :: r => if isHexDigit c then hexRun n r else none
  | _ + 1, [] => none

/-- Consume one expected character. -/
def expectChar (c : Char) : Str → Option Str
  | x :: r => if x = c then some r else none
  | [] => none

/-- The UUID regex
`/^[0-9a-f]{8}-[0-9a-f]{4}-[1-5][0-9a-f]{3}-[89ab][0-9a-f]{3}-[0-9a-f]{12}$/i`. -/
def uuidRegexTest (s : Str) : Bool :=
  (do
    let r ← hexRun 8 s
    let r ← expectChar '-' r
    let r ← hexRun 4 r
    let r ← expectChar '-' r
    let r ← match r with
      | c :: r' => if '1' ≤ c && c ≤ '5' then some r' else none
      | [] => none
    let r ← hexRun 3 r
    let r ← expectChar '-' r
    let r ← match r with
      | c :: r' =>
        if c = '8' ∨ c = '9' ∨ c = 'a' ∨ c = 'b' ∨ c = 'A' ∨ c = 'B' then some r'
        else none
      | [] => none
    let r ← hexRun 3 r
    let r ← expectChar '-' r
    let r ← hexRun 12 r
    if r = [] then some () else none).isSome

/-- The source's `typeValidators.uuid`. -/
def uuidValidator (value : Str) : TypeResult :=
  if value = [] then ⟨true, none⟩
  else if uuidRegexTest value then ⟨true, none⟩
  else ⟨false, some uuidMsg⟩

/-- The `typeValidators` lookup table, keyed by (already lowercased)
type name. -/
def typeValidatorFor (ext : Ext) (name : Str) : Option (Str → TypeResult) :=
  if name = "url".data then some (urlValidator ext)
  else if name = "port".data then some portValidator
  else if name = "boolean".data ∨ name = "bool".data then some booleanValidator
  else if name = "email".data then some emailValidator
  else if name = "number".data then some numberValidator
  else if name = "integer".data ∨ name = "int".data then some integerValidator
  else if name = "string".data ∨ name = "str".data then some stringValidator
  else if name = "json".data then some (jsonValidator ext)
  else if name = "uuid".data then some uuidValidator
  else none

def unknownTypeMsg (t : Str) : Str :=
  "Unknown type '".data ++ t ++ "'".data

/-- The source's `validateType(value, type)`. -/
def validateType (ext : Ext) (value type_ : Str) : TypeResult :=
  match typeValidatorFor ext (type_.map Char.toLower) with
  | none => ⟨true, some (unknownTypeMsg type_)⟩
  | some f => f value

/-! ## The comparator (`compare`) -/

/-- An entry of `compare`'s `missing` list. -/
structure MissingEntry where
  key : Str
  exampleValue : Option Str
  line : Option Nat
deriving DecidableEq

/-- An entry of `compare`'s `extra` list. -/
structure ExtraEntry where
  key : Str
  value : Option Str
  line : Option Nat
deriving DecidableEq

/-- An entry of `compare`'s `empty` list. -/
structure EmptyEntry where
  key : Str
  line : Option Nat
deriving DecidableEq

/-- The record returned by `compare` (its `different` list is declared
in the source but never populated). -/
structure CompareResult where
  env : EnvFile
  example_ : EnvFile
  missing : List MissingEntry
  extra : List ExtraEntry
  empty : List EmptyEntry
  different : List Unit
deriving DecidableEq

/-- The source's `compare(envPath, examplePath)`. -/
def compare (fs : FileSys) (envPath examplePath : Str) : CompareResult :=
  let env := readEnvFile fs envPath
  let ex := readEnvFile fs examplePath
  if env.exists_ && ex.exists_ then
    let envKeys := env.vars.map Prod.fst
    let exampleKeys := ex.vars.map Prod.fst
    { env := env, example_ := ex,
      missing := (exampleKeys.filter (fun k => !decide (k ∈ envKeys))).map
        (fun k => ⟨k, alGet k ex.vars, alGet k ex.lineInfo⟩),
      extra := (envKeys.filter (fun k => !decide (k ∈ exampleKeys))).map
        (fun k => ⟨k, alGet k env.vars, alGet k env.lineInfo⟩),
      empty := (envKeys.filter
          (fun k => decide (k ∈ exampleKeys) && alGet k env.vars == some [])).map
        (fun k => ⟨k, alGet k env.lineInfo⟩),
      different := [] }
  else ⟨env, ex, [], [], [], []⟩

/-! ## The validator (`validate`) -/

/-- Issue severity. -/
inductive Severity where
  | error
  | warning
deriving DecidableEq

/-- An entry of a validation/check `issues` list:
`{type, line?, message}`. -/
structure Issue where
  type_ : Severity
  line : Option Nat
  message : Str
deriving DecidableEq

/-- The options object of `validate`. -/
structure VOpts where
  required : List Str := []
  noEmpty : Bool := false
  types : List (Str × Str) := []
  validateTypes : Bool := false

/-- The result object of `validate`. -/
structure VResult where
  valid : Bool
  env : EnvFile
  issues : List Issue

def missingReqMsg (k : Str) : Str :=
  "Missing required variable: ".data ++ k
def reqEmptyMsg (k : Str) : Str :=
  "Required variable '".data ++ k ++ "' is empty".data
def emptyVarMsg (k : Str) : Str :=
  "Variable '".data ++ k ++ "' is empty".data
def typeErrMsg (k msg value : Str) : Str :=
  "Variable '".data ++ k ++ "' ".data ++ msg ++ " (got: ".data ++ value ++ ")".data

/-- The parse-error block of `validate`: one error issue per structural
parse error. -/
def parseErrIssues (env : EnvFile) : List Issue :=
  env.errors.map (fun e => ⟨.error, e.line, e.message⟩)

/-- The required-variables block of `validate`: a missing key is an
error, a present-but-empty key is an error. -/
def requiredIssues (env : EnvFile) (required : List Str) : List Issue :=
  required.filterMap (fun k =>
    match alGet k env.vars with
    | none => some ⟨.error, none, missingReqMsg k⟩
    | some v =>
      if v = [] then some ⟨.error, alGet k env.lineInfo, reqEmptyMsg k⟩
      else none)

/-- The `noEmpty` block of `validate`: a warning for every empty
variable not in the required list. -/
def noEmptyIssues (env : EnvFile) (noEmpty : Bool) (required : List Str) : List Issue :=
  if noEmpty then
    env.vars.filterMap (fun kv =>
      if kv.2 = [] ∧ kv.1 ∉ required then
        some ⟨.warning, alGet kv.1 env.lineInfo, emptyVarMsg kv.1⟩
      else none)
  else []

/-- The type-checking block of `validate`, over the merged hint map. -/
def typeIssues (ext : Ext) (env : EnvFile) (allTypes : List (Str × Str)) : List Issue :=
  allTypes.filterMap (fun kt =>
    match alGet kt.1 env.vars with
    | none => none
    | some v =>
      if v = [] then none
      else
        let tr := validateType ext v kt.2
        if tr.valid then none
        else some ⟨.error, alGet kt.1 env.lineInfo,
          typeErrMsg kt.1 (tr.message.getD "undefined".data) v⟩)

/-- The parser-warnings block of `validate`, appended last. -/
def warnIssues (env : EnvFile) : List Issue :=
  env.warnings.map (fun w => ⟨.warning, w.line, w.message⟩)

/-- The type-checking block of `validate`, guarded as in the source:
it runs only when `validateTypes` is set or an explicit `types` map was
passed. -/
def typeBlock (ext : Ext) (env : EnvFile) (opts : VOpts) : List Issue :=
  if opts.validateTypes || !opts.types.isEmpty then
    typeIssues ext env (alMerge env.typeHints opts.types)
  else []

/-- The source's `validate(filePath, options)`.  The `valid` flag is cleared
exactly at the sites that push error issues. -/
def validate (ext : Ext) (fs : FileSys) (filePath : Str) (opts : VOpts) : VResult :=
  let env := readEnvFile fs filePath
  if env.exists_ then
    let pe := parseErrIssues env
    let re := requiredIssues env opts.required
    let nem := noEmptyIssues env opts.noEmpty opts.required
    let tb := typeBlock ext env opts
    { valid := pe.isEmpty && re.isEmpty && tb.isEmpty,
      env := env,
      issues := pe ++ re ++ nem ++ tb ++ warnIssues env }
  else
    { valid := false, env := env,
      issues := [⟨.error, none, fileNotFoundMsg filePath⟩] }

/-! ## The checker (`check`) -/

/-- The options object of `check`. -/
structure CheckOpts where
  examplePath : Option Str := none
  required : List Str := []
  noEmpty : Bool := false
  noExtra : Bool := false
  strict : Bool := false
  types : List (Str × Str) := []
  validateTypes : Bool := false

/-- The `summary` object of `check`. -/
structure Summary where
  errors : Nat
  warnings : Nat
deriving DecidableEq

/-- The result object of `check`. -/
structure CheckResult where
  valid : Bool
  issues : List Issue
  summary : Summary
  env : EnvFile
  comparison : Option CompareResult

def missingVarMsg (k : Str) (line : Option Nat) : Str :=
  "Missing variable '".data ++ k ++ "' (defined in example at line ".data ++
    optNatStr line ++ ")".data
def extraVarMsg (k : Str) : Str :=
  "Extra variable '".data ++ k ++ "' not in example".data

/-- Count of error-severity issues (the `summary.errors` tally). -/
def countErrors (l : List Issue) : Nat :=
  l.countP (fun i => i.type_ == Severity.error)

/-- Count of non-error issues (the `summary.warnings` tally). -/
def countWarnings (l : List Issue) : Nat :=
  l.countP (fun i => !(i.type_ == Severity.error))

/-- The issues `check` derives from `comparison.missing`. -/
def missingIssuesOf (c : CompareResult) : List Issue :=
  c.missing.map (fun it => ⟨.error, none, missingVarMsg it.key it.line⟩)

/-- The issues `check` derives from `comparison.empty`; warnings, or
errors in strict mode. -/
def emptyIssuesOf (c : CompareResult) (strict : Bool) : List Issue :=
  c.empty.map (fun it =>
    ⟨if strict then .error else .warning, it.line, emptyVarMsg it.key⟩)

/-- The issues `check` derives from `comparison.extra` when `noExtra`
is set. -/
def extraIssuesOf (c : CompareResult) (noExtra : Bool) : List Issue :=
  if noExtra then c.extra.map (fun it => ⟨.error, it.line, extraVarMsg it.key⟩)
  else []

/-- The validation step of `check`: merge the example file's type hints
(if the example exists) under the explicit `types`, then run `validate`
with type validation force-enabled when the merged map is nonempty. -/
def checkValidation (ext : Ext) (fs : FileSys) (envPath : Str) (opts : CheckOpts) : VResult :=
  let exampleTypeHints : List (Str × Str) :=
    match opts.examplePath with
    | some p =>
      let ex := readEnvFile fs p
      if ex.exists_ then ex.typeHints else []
    | none => []
  let mergedTypes := alMerge exampleTypeHints opts.types
  validate ext fs envPath
    { required := opts.required, noEmpty := opts.noEmpty, types := mergedTypes,
      validateTypes := opts.validateTypes || !mergedTypes.isEmpty }

/-- The source's `check(envPath, options)`. -/
def check (ext : Ext) (fs : FileSys) (envPath : Str) (opts : CheckOpts) : CheckResult :=
  let validation := checkValidation ext fs envPath opts
  match opts.examplePath with
  | none =>
    { valid := validation.valid, issues := validation.issues,
      summary := ⟨countErrors validation.issues, countWarnings validation.issues⟩,
      env := validation.env, comparison := none }
  | some exPath =>
    let comparison := compare fs envPath exPath
    let issues := validation.issues ++ missingIssuesOf comparison ++
      emptyIssuesOf comparison opts.strict ++ extraIssuesOf comparison opts.noExtra
    { valid := validation.valid && (missingIssuesOf comparison).isEmpty &&
        (!opts.strict || (emptyIssuesOf comparison opts.strict).isEmpty) &&
        (!opts.noExtra || (extraIssuesOf comparison opts.noExtra).isEmpty),
      issues := issues,
      summary := ⟨countErrors issues, countWarnings issues⟩,
      env := validation.env, comparison := some comparison }

/-! ## Fixtures for concrete instantiations -/

/-- A file system with no files. -/
def fsEmpty : FileSys := fun _ => none

/-- A two-file system: `e` is an env file whose single variable `A` is
empty, `x` is an example file declaring `A` with a value. -/
def fsAB : FileSys := fun p =>
  if p = "e".data then some "A=".data
  else if p = "x".data then some "A=1".data
  else none

/-- Trivial oracles for the host URL/JSON parsers. -/
def extNone : Ext := ⟨fun _ => false, fun _ => false⟩

/-- The property claim C1 asserts of `check` with an existing example
file: every shared key with an empty env-side value yields a warning
issue when `strict` is off and an error issue (with `valid:false`) when
`strict` is on; with `strict` off, `valid` is true whenever no error
exists; and the two issue lists differ only in the severity of the
block derived from `comparison.empty`. -/
def C1Prop (ext : Ext) (fs : FileSys) (envPath exPath : Str) (opts : CheckOpts) : Prop :=
  (∀ k, alGet k (readEnvFile fs envPath).vars = some [] →
    k ∈ (readEnvFile fs exPath).vars.map Prod.fst →
    ((⟨Severity.warning, alGet k (readEnvFile fs envPath).lineInfo, emptyVarMsg k⟩ : Issue) ∈
        (check ext fs envPath { opts with examplePath := some exPath, strict := false }).issues ∧
      (⟨Severity.error, alGet k (readEnvFile fs envPath).lineInfo, emptyVarMsg k⟩ : Issue) ∈
        (check ext fs envPath { opts with examplePath := some exPath, strict := true }).issues ∧
      (check ext fs envPath { opts with examplePath := some exPath, strict := true }).valid =
        false)) ∧
  ((check ext fs envPath { opts with examplePath := some exPath, strict := false }).summary.errors = 0 →
    (check ext fs envPath { opts with examplePath := some exPath, strict := false }).valid = true) ∧
  (∃ pre post,
    (check ext fs envPath { opts with examplePath := some exPath, strict := false }).issues =
      pre ++ (compare fs envPath exPath).empty.map
        (fun it => (⟨Severity.warning, it.line, emptyVarMsg it.key⟩ : Issue)) ++ post ∧
    (check ext fs envPath { opts with examplePath := some exPath, strict := true }).issues =
      pre ++ (compare fs envPath exPath).empty.map
        (fun it => (⟨Severity.error, it.line, emptyVarMsg it.key⟩ : Issue)) ++ post)

/-- The property claim C2 asserts of `validate` for a required key `k`:
a missing required key yields exactly one error issue (and `valid`
false); a present-but-empty required key yields exactly one error issue,
`valid` false, and no empty-value warning for `k` whatever `noEmpty`
is. -/
def C2Prop (ext : Ext) (fs : FileSys) (filePath : Str) (opts : VOpts) (k : Str) : Prop :=
  (alGet k (readEnvFile fs filePath).vars = none →
    ((validate ext fs filePath opts).issues.count
        (⟨Severity.error, none, missingReqMsg k⟩ : Issue) = 1 ∧
      (validate ext fs filePath opts).valid = false)) ∧
  (alGet k (readEnvFile fs filePath).vars = some [] →
    ((validate ext fs filePath opts).issues.count
        (⟨Severity.error, alGet k (readEnvFile fs filePath).lineInfo, reqEmptyMsg k⟩ : Issue) = 1 ∧
      (validate ext fs filePath opts).valid = false ∧
      ∀ l, (⟨Severity.warning, l, emptyVarMsg k⟩ : Issue) ∉ (validate ext fs filePath opts).issues))

/-- The property claim C4 asserts of `compare` on two existing files
with env key list `A` and example key list `B`: `missing` is exactly
`B \ A`, `extra` is exactly `A \ B`, the two cardinality laws hold, and
every `empty` entry is a key of both sides whose env value is empty (so
a key present only in env never appears in `empty`). -/
def C4Prop (fs : FileSys) (envPath examplePath : Str) : Prop :=
  ((compare fs envPath examplePath).missing.map (fun e => e.key) =
    ((readEnvFile fs examplePath).vars.map Prod.fst).filter
      (fun k => !decide (k ∈ (readEnvFile fs envPath).vars.map Prod.fst))) ∧
  ((compare fs envPath examplePath).extra.map (fun e => e.key) =
    ((readEnvFile fs envPath).vars.map Prod.fst).filter
      (fun k => !decide (k ∈ (readEnvFile fs examplePath).vars.map Prod.fst))) ∧
  ((compare fs envPath examplePath).missing.length +
    (((readEnvFile fs examplePath).vars.map Prod.fst).filter
      (fun k => decide (k ∈ (readEnvFile fs envPath).vars.map Prod.fst))).length =
    ((readEnvFile fs examplePath).vars.map Prod.fst).length) ∧
  ((compare fs envPath examplePath).extra.length +
    (((readEnvFile fs examplePath).vars.map Prod.fst).filter
      (fun k => decide (k ∈ (readEnvFile fs envPath).vars.map Prod.fst))).length =
    ((readEnvFile fs envPath).vars.map Prod.fst).length) ∧
  (∀ e ∈ (compare fs envPath examplePath).empty,
    e.key ∈ (readEnvFile fs envPath).vars.map Prod.fst ∧
    e.key ∈ (readEnvFile fs examplePath).vars.map Prod.fst ∧
    alGet e.key (readEnvFile fs envPath).vars = some []) ∧
  (∀ k, k ∈ (readEnvFile fs envPath).vars.map Prod.fst →
    k ∉ (readEnvFile fs examplePath).vars.map Prod.fst →
    k ∉ (compare fs envPath examplePath).empty.map (fun e => e.key))

/-- The property claim C10 asserts of `check`: an `examplePath` naming a
nonexistent file leaves the issues, the valid flag and the summary
exactly as in the call without `examplePath`. -/
def C10Prop (ext : Ext) (fs : FileSys) (envPath exPath : Str) (opts : CheckOpts) : Prop :=
  (check ext fs envPath { opts with examplePath := some exPath }).issues =
    (check ext fs envPath { opts with examplePath := none }).issues ∧
  (check ext fs envPath { opts with examplePath := some exPath }).valid =
    (check ext fs envPath { opts with examplePath := none }).valid ∧
  (check ext fs envPath { opts with examplePath := some exPath }).summary =
    (check ext fs envPath { opts with examplePath := none }).summary

/-- The invariant carried by `parseEnv`'s loop: variable keys stay
duplicate-free, and every recorded error/warning message has one of the
parser's fixed shapes. -/
def StOk (st : PState) : Prop :=
  (st.vars.map Prod.fst).Nodup ∧
  (∀ e ∈ st.errors, e.message = missingEqMsg ∨ e.message = emptyNameMsg) ∧
  (∀ w ∈ st.warnings,
    (∃ k, w.message = unusualMsg k) ∨ ∃ k p, w.message = dupMsg k p)

/-! ## Association-list lemmas -/

theorem alGet_nil {α : Type} (k : Str) : alGet k ([] : List (Str × α)) = none := rfl

theorem alGet_cons_self {α : Type} (k : Str) (v : α) (m : List (Str × α)) :
    alGet k ((k, v) :: m) = some v := by
  show (if k = k then some v else alGet k m) = some v
  exact if_pos rfl

theorem alGet_cons_ne {α : Type} {k k' : Str} (v : α) (m : List (Str × α))
    (h : k' ≠ k) : alGet k ((k', v) :: m) = alGet k m := by
  show (if k' = k then some v else alGet k m) = alGet k m
  exact if_neg h

theorem alGet_isSome_iff_mem {α : Type} (k : Str) (m : List (Str × α)) :
    (alGet k m).isSome ↔ k ∈ m.map Prod.fst := by
  induction m with
  | nil =>
    rw [alGet_nil]
    simp only [Option.isSome_none, List.map_nil, List.not_mem_nil, iff_false]
    exact Bool.false_ne_true
  | cons kv rest ih =>
    obtain ⟨k', v'⟩ := kv
    by_cases h : k' = k
    · subst h
      rw [alGet_cons_self]
      simp only [Option.isSome_some, List.map_cons, List.mem_cons]
      exact ⟨fun _ => Or.inl trivial, fun _ => trivial⟩
    · rw [alGet_cons_ne _ _ h]
      simp only [List.map_cons, List.mem_cons, ih]
      exact ⟨Or.inr, fun h' => h'.elim (fun e => absurd e.symm h) id⟩

theorem mem_of_alGet_eq_some {α : Type} {k : Str} {m : List (Str × α)} {v : α}
    (h : alGet k m = some v) : k ∈ m.map Prod.fst :=
  (alGet_isSome_iff_mem k m).mp (by simp [h])

theorem alGet_eq_none_of_not_mem {α : Type} {k : Str} {m : List (Str × α)}
    (h : k ∉ m.map Prod.fst) : alGet k m = none := by
  cases h' : alGet k m with
  | none => rfl
  | some v => exact absurd (mem_of_alGet_eq_some h') h

theorem alUpsert_nil {α : Type} (k : Str) (v : α) :
    alUpsert k v ([] : List (Str × α)) = [(k, v)] := rfl

theorem alUpsert_cons_self {α : Type} (k : Str) (v v' : α) (m : List (Str × α)) :
    alUpsert k v ((k, v') :: m) = (k, v) :: m := by
  show (if k = k then (k, v) :: m else (k, v') :: alUpsert k v m) = (k, v) :: m
  exact if_pos rfl

theorem alUpsert_cons_ne {α : Type} {k k' : Str} (v v' : α) (m : List (Str × α))
    (h : k' ≠ k) : alUpsert k v ((k', v') :: m) = (k', v') :: alUpsert k v m := by
  show (if k' = k then (k, v) :: m else (k', v') :: alUpsert k v m) = _
  exact if_neg h

theorem map_fst_alUpsert {α : Type} (k : Str) (v : α) (m : List (Str × α)) :
    (alUpsert k v m).map Prod.fst =
      if k ∈ m.map Prod.fst then m.map Prod.fst else m.map Prod.fst ++ [k] := by
  induction m with
  | nil =>
    rw [alUpsert_nil]
    simp only [List.map_nil, List.not_mem_nil, if_neg (fun h => h), List.nil_append,
      List.map_cons]
  | cons kv rest ih =>
    obtain ⟨k', v'⟩ := kv
    by_cases h : k' = k
    · subst h
      rw [alUpsert_cons_self]
      simp only [List.map_cons]
      rw [if_pos (List.mem_cons_self _ _)]
    · rw [alUpsert_cons_ne _ _ _ h]
      simp only [List.map_cons, ih]
      by_cases hm : k ∈ rest.map Prod.fst
      · rw [if_pos hm, if_pos (List.mem_cons_of_mem _ hm)]
      · have hk : k ∉ k' :: rest.map Prod.fst := by
          intro hc
          rcases List.mem_cons.mp hc with e | e
          · exact h e.symm
          · exact hm e
        rw [if_neg hm, if_neg hk, List.cons_append]

theorem nodup_map_fst_alUpsert {α : Type} {k : Str} {v : α} {m : List (Str × α)}
    (h : (m.map Prod.fst).Nodup) : ((alUpsert k v m).map Prod.fst).Nodup := by
  rw [map_fst_alUpsert]
  split
  · exact h
  · next hk => simp [List.nodup_append, h, hk]

/-! ## Parser invariants -/

theorem stOk_append_error {st : PState} {l : Option Nat} {msg : Str} {c : Option Str}
    (h : StOk st) (hm : msg = missingEqMsg ∨ msg = emptyNameMsg) :
    StOk { st with errors := st.errors ++ [⟨l, msg, c⟩] } := by
  obtain ⟨h1, h2, h3⟩ := h
  refine ⟨h1, ?_, h3⟩
  intro e he
  rcases List.mem_append.mp he with h' | h'
  · exact h2 e h'
  · simp only [List.mem_singleton] at h'
    subst h'
    exact hm

theorem stOk_append_warning {st : PState} {l : Option Nat} {msg : Str} {c : Option Str}
    (h : StOk st)
    (hm : (∃ k, msg = unusualMsg k) ∨ ∃ k p, msg = dupMsg k p) :
    StOk { st with warnings := st.warnings ++ [⟨l, msg, c⟩] } := by
  obtain ⟨h1, h2, h3⟩ := h
  refine ⟨h1, h2, ?_⟩
  intro w hw
  rcases List.mem_append.mp hw with h' | h'
  · exact h3 w h'
  · simp only [List.mem_singleton] at h'
    subst h'
    exact hm

theorem processLine_stOk (st : PState) (n : Nat) (line : Str) (h : StOk st) :
    StOk (processLine st n line) := by
  have hu : ∀ st', StOk st' →
      ∀ key value ln th pd, StOk { st' with
        vars := alUpsert key value st'.vars,
        lineInfo := alUpsert key ln st'.lineInfo,
        typeHints := th, pending := pd } :=
    fun st' h' _ _ _ _ _ => ⟨nodup_map_fst_alUpsert h'.1, h'.2.1, h'.2.2⟩
  have hu' : ∀ st', StOk st' →
      ∀ key value ln, StOk { st' with
        vars := alUpsert key value st'.vars,
        lineInfo := alUpsert key ln st'.lineInfo } :=
    fun st' h' _ _ _ => ⟨nodup_map_fst_alUpsert h'.1, h'.2.1, h'.2.2⟩
  simp only [processLine]
  repeat' split
  all_goals first
    | exact h
    | exact stOk_append_error h (Or.inl rfl)
    | exact stOk_append_error h (Or.inr rfl)
    | exact hu _ h _ _ _ _ _
    | exact hu' _ h _ _ _
    | exact hu _ (stOk_append_warning h (Or.inr ⟨_, _, rfl⟩)) _ _ _ _ _
    | exact hu' _ (stOk_append_warning h (Or.inr ⟨_, _, rfl⟩)) _ _ _
    | exact hu _ (stOk_append_warning h (Or.inl ⟨_, rfl⟩)) _ _ _ _ _
    | exact hu' _ (stOk_append_warning h (Or.inl ⟨_, rfl⟩)) _ _ _
    | exact hu _ (stOk_append_warning (stOk_append_warning h (Or.inl ⟨_, rfl⟩))
        (Or.inr ⟨_, _, rfl⟩)) _ _ _ _ _

theorem parseLinesFrom_stOk (ls : List Str) (st : PState) (n : Nat) (h : StOk st) :
    StOk (parseLinesFrom st n ls) := by
  induction ls generalizing st n with
  | nil => exact h
  | cons l ls ih => exact ih _ _ (processLine_stOk st n l h)

theorem parseEnv_stOk (content : Str) :
    ((parseEnv content).vars.map Prod.fst).Nodup ∧
    (∀ e ∈ (parseEnv content).errors,
      e.message = missingEqMsg ∨ e.message = emptyNameMsg) ∧
    (∀ w ∈ (parseEnv content).warnings,
      (∃ k, w.message = unusualMsg k) ∨ ∃ k p, w.message = dupMsg k p) :=
  parseLinesFrom_stOk (splitLines content) ⟨[], [], [], [], [], none⟩ 1
    ⟨List.nodup_nil, by simp, by simp⟩

/-! ## File-reader lemmas -/

theorem readEnvFile_vars_of_not_exists {fs : FileSys} {p : Str}
    (h : (readEnvFile fs p).exists_ = false) : (readEnvFile fs p).vars = [] := by
  unfold readEnvFile at *
  cases hf : fs p with
  | none => simp [hf]
  | some c => rw [hf] at h; simp at h

theorem readEnvFile_nodup (fs : FileSys) (p : Str) :
    ((readEnvFile fs p).vars.map Prod.fst).Nodup := by
  unfold readEnvFile
  cases hf : fs p with
  | none => simp
  | some c => exact (parseEnv_stOk c).1

theorem readEnvFile_errors_ok {fs : FileSys} {p : Str}
    (h : (readEnvFile fs p).exists_ = true) :
    ∀ e ∈ (readEnvFile fs p).errors,
      e.message = missingEqMsg ∨ e.message = emptyNameMsg := by
  unfold readEnvFile at *
  cases hf : fs p with
  | none => rw [hf] at h; simp at h
  | some c => exact (parseEnv_stOk c).2.1

theorem readEnvFile_warnings_ok {fs : FileSys} {p : Str}
    (h : (readEnvFile fs p).exists_ = true) :
    ∀ w ∈ (readEnvFile fs p).warnings,
      (∃ k, w.message = unusualMsg k) ∨ ∃ k p', w.message = dupMsg k p' := by
  unfold readEnvFile at *
  cases hf : fs p with
  | none => rw [hf] at h; simp at h
  | some c => exact (parseEnv_stOk c).2.2

/-! ## String-utility lemmas -/

theorem findSpaceHash_eq_none {s : Str} (h : '#' ∉ s) : findSpaceHash s = none := by
  induction s with
  | nil => rfl
  | cons c rest ih =>
    have hnc : ¬(c = ' ' ∧ rest.head? = some '#') := by
      rintro ⟨-, hh⟩
      cases rest with
      | nil => simp at hh
      | cons d ds =>
        simp only [List.head?_cons, Option.some.injEq] at hh
        exact h (by rw [hh] at *; exact List.mem_cons_of_mem _ (List.mem_cons_self _ _))
    rw [findSpaceHash, if_neg hnc, ih (fun hm => h (List.mem_cons_of_mem _ hm))]
    rfl

theorem splitLines_eq_single {s : Str} (h : '\n' ∉ s) : splitLines s = [s] := by
  induction s with
  | nil => rfl
  | cons c rest ih =>
    have hc : ¬c = '\n' := fun e => h (e ▸ List.mem_cons_self c rest)
    have hr : '\n' ∉ rest := fun hm => h (List.mem_cons_of_mem _ hm)
    rw [splitLines, if_neg hc, ih hr]

theorem trimLeft_eq_self {v : Str} (h : ∀ c, v.head? = some c → isJsWs c = false) :
    trimLeft v = v := by
  cases v with
  | nil => rfl
  | cons c t =>
    unfold trimLeft
    rw [List.dropWhile_cons, h c rfl]
    simp

theorem trimRight_eq_self {v : Str} (h : ∀ c, v.getLast? = some c → isJsWs c = false) :
    trimRight v = v := by
  unfold trimRight
  cases hr : v.reverse with
  | nil =>
    have hv : v = [] := by simpa using congrArg List.reverse hr
    subst hv; rfl
  | cons c t =>
    have hc : isJsWs c = false := h c (by rw [← List.head?_reverse, hr]; rfl)
    simp only [List.dropWhile_cons, hc, Bool.false_eq_true, if_false]
    rw [← hr, List.reverse_reverse]

theorem jsTrim_eq_self {v : Str}
    (hh : ∀ c, v.head? = some c → isJsWs c = false)
    (hl : ∀ c, v.getLast? = some c → isJsWs c = false) :
    jsTrim v = v := by
  unfold jsTrim
  rw [trimLeft_eq_self hh, trimRight_eq_self hl]

theorem mem_of_getLast?_eq_some {c : Char} {v : Str} (h : v.getLast? = some c) :
    c ∈ v := by
  rw [← List.head?_reverse] at h
  exact List.mem_reverse.mp (List.mem_of_mem_head? (Option.mem_def.mpr h))

/-- The value of a plain (unquoted, comment-free, whitespace-trimmed)
raw string resolves to itself. -/
theorem parseValue_plain {v : Str}
    (hdq : '"' ∉ v) (hsq : '\'' ∉ v) (hhash : '#' ∉ v)
    (hh : ∀ c, v.head? = some c → isJsWs c = false)
    (hl : ∀ c, v.getLast? = some c → isJsWs c = false) :
    parseValue v = v := by
  have hcomment : commentPhase v = v := by
    unfold commentPhase
    split
    · rfl
    · unfold stripInline
      rw [findSpaceHash_eq_none hhash]
  have htrim : jsTrim v = v := jsTrim_eq_self hh hl
  unfold parseValue
  rw [hcomment, htrim]
  unfold quotePhase
  rw [if_neg]
  simp only [Bool.or_eq_true, Bool.and_eq_true, decide_eq_true_eq]
  rintro (⟨h1, -⟩ | ⟨h1, -⟩)
  · exact hdq (List.mem_of_mem_head? (Option.mem_def.mpr h1))
  · exact hsq (List.mem_of_mem_head? (Option.mem_def.mpr h1))

/-! ## Message-shape lemmas -/

theorem missingEqMsg_cons : missingEqMsg = 'I' :: "nvalid syntax: missing '=' sign".data := rfl

theorem emptyNameMsg_cons : emptyNameMsg = 'E' :: "mpty variable name".data := rfl

theorem missingReqMsg_cons (k : Str) :
    missingReqMsg k = 'M' :: ("issing required variable: ".data ++ k) := rfl

theorem reqEmptyMsg_cons (k : Str) :
    reqEmptyMsg k = 'R' :: ("equired variable '".data ++ k ++ "' is empty".data) := rfl

theorem typeErrMsg_cons (k msg value : Str) :
    typeErrMsg k msg value =
      'V' :: ("ariable '".data ++ k ++ "' ".data ++ msg ++ " (got: ".data ++ value ++ ")".data) := by
  unfold typeErrMsg
  simp only [List.append_assoc]
  rfl

theorem emptyVarMsg_cons (k : Str) :
    emptyVarMsg k =
      'V' :: 'a' :: 'r' :: 'i' :: 'a' :: 'b' :: 'l' :: 'e' :: ' ' :: '\'' ::
        (k ++ "' is empty".data) := rfl

theorem unusualMsg_cons (k : Str) :
    unusualMsg k =
      'V' :: 'a' :: 'r' :: 'i' :: 'a' :: 'b' :: 'l' :: 'e' :: ' ' :: 'n' ::
        ("ame '".data ++ k ++ "' contains unusual characters".data) := rfl

theorem dupMsg_cons (k : Str) (p : Option Nat) :
    dupMsg k p =
      'D' :: ("uplicate variable '".data ++ k ++ "' (previous at line ".data ++
        optNatStr p ++ ")".data) := by
  unfold dupMsg
  simp only [List.append_assoc]
  rfl

theorem missingReqMsg_inj {k k' : Str} (h : missingReqMsg k = missingReqMsg k') : k = k' := by
  unfold missingReqMsg at h
  exact List.append_cancel_left h

theorem reqEmptyMsg_inj {k k' : Str} (h : reqEmptyMsg k = reqEmptyMsg k') : k = k' := by
  unfold reqEmptyMsg at h
  exact List.append_cancel_left (List.append_cancel_right h)

theorem emptyVarMsg_inj {k k' : Str} (h : emptyVarMsg k = emptyVarMsg k') : k = k' := by
  unfold emptyVarMsg at h
  exact List.append_cancel_left (List.append_cancel_right h)

theorem missingReqMsg_ne_missingEqMsg (k : Str) : missingReqMsg k ≠ missingEqMsg := by
  rw [missingReqMsg_cons, missingEqMsg_cons]
  intro e
  injection e with e1 _
  exact absurd e1 (by decide)

theorem missingReqMsg_ne_emptyNameMsg (k : Str) : missingReqMsg k ≠ emptyNameMsg := by
  rw [missingReqMsg_cons, emptyNameMsg_cons]
  intro e
  injection e with e1 _
  exact absurd e1 (by decide)

theorem reqEmptyMsg_ne_missingEqMsg (k : Str) : reqEmptyMsg k ≠ missingEqMsg := by
  rw [reqEmptyMsg_cons, missingEqMsg_cons]
  intro e
  injection e with e1 _
  exact absurd e1 (by decide)

theorem reqEmptyMsg_ne_emptyNameMsg (k : Str) : reqEmptyMsg k ≠ emptyNameMsg := by
  rw [reqEmptyMsg_cons, emptyNameMsg_cons]
  intro e
  injection e with e1 _
  exact absurd e1 (by decide)

theorem reqEmptyMsg_ne_missingReqMsg (k k' : Str) : reqEmptyMsg k ≠ missingReqMsg k' := by
  rw [reqEmptyMsg_cons, missingReqMsg_cons]
  intro e
  injection e with e1 _
  exact absurd e1 (by decide)

theorem typeErrMsg_ne_missingReqMsg (k m v k' : Str) : typeErrMsg k m v ≠ missingReqMsg k' := by
  rw [typeErrMsg_cons, missingReqMsg_cons]
  intro e
  injection e with e1 _
  exact absurd e1 (by decide)

theorem typeErrMsg_ne_reqEmptyMsg (k m v k' : Str) : typeErrMsg k m v ≠ reqEmptyMsg k' := by
  rw [typeErrMsg_cons, reqEmptyMsg_cons]
  intro e
  injection e with e1 _
  exact absurd e1 (by decide)

theorem unusualMsg_ne_emptyVarMsg (k k' : Str) : unusualMsg k ≠ emptyVarMsg k' := by
  rw [unusualMsg_cons, emptyVarMsg_cons]
  intro e
  simp only [List.cons.injEq] at e
  exact absurd e.2.2.2.2.2.2.2.2.2.1 (by decide)

theorem dupMsg_ne_emptyVarMsg (k : Str) (p : Option Nat) (k' : Str) :
    dupMsg k p ≠ emptyVarMsg k' := by
  rw [dupMsg_cons, emptyVarMsg_cons]
  intro e
  injection e with e1 _
  exact absurd e1 (by decide)

/-! ## Comparator and issue-block lemmas -/

theorem compare_lists_nil (fs : FileSys) (envPath examplePath : Str)
    (h : (readEnvFile fs envPath).exists_ = false ∨
      (readEnvFile fs examplePath).exists_ = false) :
    (compare fs envPath examplePath).missing = [] ∧
    (compare fs envPath examplePath).extra = [] ∧
    (compare fs envPath examplePath).empty = [] := by
  have hc : ((readEnvFile fs envPath).exists_ && (readEnvFile fs examplePath).exists_) = false := by
    rcases h with h | h <;> simp [h]
  simp [compare, hc]

theorem mem_parseErrIssues_shape {env : EnvFile} {i : Issue}
    (h : i ∈ parseErrIssues env) :
    i.type_ = Severity.error ∧ ∃ e ∈ env.errors, i.message = e.message := by
  unfold parseErrIssues at h
  obtain ⟨e, he, hi⟩ := List.mem_map.mp h
  subst hi
  exact ⟨rfl, e, he, rfl⟩

theorem mem_requiredIssues_shape {env : EnvFile} {required : List Str} {i : Issue}
    (h : i ∈ requiredIssues env required) :
    i.type_ = Severity.error ∧ ∃ k ∈ required,
      (alGet k env.vars = none ∧ i = ⟨Severity.error, none, missingReqMsg k⟩) ∨
      (alGet k env.vars = some [] ∧
        i = ⟨Severity.error, alGet k env.lineInfo, reqEmptyMsg k⟩) := by
  unfold requiredIssues at h
  obtain ⟨k, hk, hf⟩ := List.mem_filterMap.mp h
  cases halg : alGet k env.vars with
  | none =>
    simp only [halg, Option.some.injEq] at hf
    subst hf
    exact ⟨rfl, k, hk, Or.inl ⟨halg, rfl⟩⟩
  | some v =>
    simp only [halg] at hf
    by_cases hv : v = []
    · subst hv
      rw [if_pos rfl] at hf
      simp only [Option.some.injEq] at hf
      subst hf
      exact ⟨rfl, k, hk, Or.inr ⟨halg, rfl⟩⟩
    · rw [if_neg hv] at hf
      exact absurd hf (by simp)

theorem mem_noEmptyIssues_shape {env : EnvFile} {noEmpty : Bool} {required : List Str}
    {i : Issue} (h : i ∈ noEmptyIssues env noEmpty required) :
    i.type_ = Severity.warning ∧ ∃ k, k ∉ required ∧ i.message = emptyVarMsg k := by
  unfold noEmptyIssues at h
  cases noEmpty with
  | false => exact absurd h (by simp)
  | true =>
    rw [if_pos rfl] at h
    obtain ⟨kv, hkv, hf⟩ := List.mem_filterMap.mp h
    by_cases hc : kv.2 = [] ∧ kv.1 ∉ required
    · rw [if_pos hc] at hf
      simp only [Option.some.injEq] at hf
      subst hf
      exact ⟨rfl, kv.1, hc.2, rfl⟩
    · rw [if_neg hc] at hf
      exact absurd hf (by simp)

theorem mem_typeIssues_shape {ext : Ext} {env : EnvFile} {allTypes : List (Str × Str)}
    {i : Issue} (h : i ∈ typeIssues ext env allTypes) :
    i.type_ = Severity.error ∧ ∃ k m v, i.message = typeErrMsg k m v := by
  unfold typeIssues at h
  obtain ⟨kt, hkt, hf⟩ := List.mem_filterMap.mp h
  cases halg : alGet kt.1 env.vars with
  | none =>
    simp only [halg] at hf
    exact absurd hf (by simp)
  | some v =>
    simp only [halg] at hf
    by_cases hv : v = []
    · rw [if_pos hv] at hf
      exact absurd hf (by simp)
    · rw [if_neg hv] at hf
      by_cases hval : (validateType ext v kt.2).valid
      · rw [if_pos hval] at hf
        exact absurd hf (by simp)
      · rw [if_neg hval] at hf
        simp only [Option.some.injEq] at hf
        subst hf
        exact ⟨rfl, kt.1, _, v, rfl⟩

theorem mem_warnIssues_shape {env : EnvFile} {i : Issue} (h : i ∈ warnIssues env) :
    i.type_ = Severity.warning ∧ ∃ w ∈ env.warnings, i.message = w.message := by
  unfold warnIssues at h
  obtain ⟨w, hw, hi⟩ := List.mem_map.mp h
  subst hi
  exact ⟨rfl, w, hw, rfl⟩

theorem mem_missingIssuesOf_error {c : CompareResult} {i : Issue}
    (h : i ∈ missingIssuesOf c) : i.type_ = Severity.error := by
  unfold missingIssuesOf at h
  obtain ⟨e, _, hi⟩ := List.mem_map.mp h
  subst hi
  rfl

theorem mem_extraIssuesOf_error {c : CompareResult} {noExtra : Bool} {i : Issue}
    (h : i ∈ extraIssuesOf c noExtra) : i.type_ = Severity.error := by
  unfold extraIssuesOf at h
  cases noExtra with
  | false => exact absurd h (by simp)
  | true =>
    rw [if_pos rfl] at h
    obtain ⟨e, _, hi⟩ := List.mem_map.mp h
    subst hi
    rfl

theorem countP_error_eq_length {l : List Issue}
    (h : ∀ i ∈ l, i.type_ = Severity.error) :
    l.countP (fun i => i.type_ == Severity.error) = l.length :=
  List.countP_eq_length.mpr (fun i hi => by rw [h i hi]; rfl)

theorem eq_nil_of_no_error_count {l : List Issue}
    (hall : ∀ i ∈ l, i.type_ = Severity.error)
    (h : l.countP (fun i => i.type_ == Severity.error) = 0) : l = [] := by
  rw [countP_error_eq_length hall] at h
  exact List.length_eq_zero.mp h

theorem length_filter_add_length_filter_not {α : Type} (p : α → Bool) (l : List α) :
    (l.filter p).length + (l.filter (fun a => !p a)).length = l.length := by
  have h := (List.filter_append_perm p l).length_eq
  rw [List.length_append] at h
  exact h

theorem length_filter_mem_comm {A B : List Str} (hA : A.Nodup) (hB : B.Nodup) :
    (A.filter (fun k => decide (k ∈ B))).length =
      (B.filter (fun k => decide (k ∈ A))).length := by
  have nA := hA.filter (fun k => decide (k ∈ B))
  have nB := hB.filter (fun k => decide (k ∈ A))
  rw [← List.toFinset_card_of_nodup nA, ← List.toFinset_card_of_nodup nB]
  have e1 : (A.filter (fun k => decide (k ∈ B))).toFinset = A.toFinset ∩ B.toFinset := by
    ext x
    simp [List.mem_filter]
  have e2 : (B.filter (fun k => decide (k ∈ A))).toFinset = B.toFinset ∩ A.toFinset := by
    ext x
    simp [List.mem_filter]
  rw [e1, e2, Finset.inter_comm]

theorem countP_eq_one_of_nodup_mem {α : Type} [DecidableEq α] {l : List α} {k : α}
    (hnd : l.Nodup) (hk : k ∈ l) : l.countP (fun x => decide (x = k)) = 1 := by
  induction l with
  | nil => simp at hk
  | cons a l ih =>
    rw [List.countP_cons]
    by_cases hak : a = k
    · subst hak
      have hnm : a ∉ l := (List.nodup_cons.mp hnd).1
      have hz : l.countP (fun x => decide (x = a)) = 0 := by
        rw [List.countP_eq_zero]
        intro x hx
        simp only [decide_eq_true_eq]
        exact fun e => hnm (e ▸ hx)
      rw [hz, if_pos (by simp)]
    · have hk' : k ∈ l := by
        rcases List.mem_cons.mp hk with heq | h'
        · exact absurd heq.symm hak
        · exact h'
      rw [ih (List.nodup_cons.mp hnd).2 hk', if_neg (by simp [hak])]

theorem mem_typeBlock_shape {ext : Ext} {env : EnvFile} {opts : VOpts} {i : Issue}
    (h : i ∈ typeBlock ext env opts) :
    i.type_ = Severity.error ∧ ∃ k m v, i.message = typeErrMsg k m v := by
  unfold typeBlock at h
  split at h
  · exact mem_typeIssues_shape h
  · exact absurd h (by simp)

theorem validate_eq_of_exists (ext : Ext) (fs : FileSys) (filePath : Str) (opts : VOpts)
    (he : (readEnvFile fs filePath).exists_ = true) :
    validate ext fs filePath opts =
      { valid := (parseErrIssues (readEnvFile fs filePath)).isEmpty &&
          (requiredIssues (readEnvFile fs filePath) opts.required).isEmpty &&
          (typeBlock ext (readEnvFile fs filePath) opts).isEmpty,
        env := readEnvFile fs filePath,
        issues := parseErrIssues (readEnvFile fs filePath) ++
          requiredIssues (readEnvFile fs filePath) opts.required ++
          noEmptyIssues (readEnvFile fs filePath) opts.noEmpty opts.required ++
          typeBlock ext (readEnvFile fs filePath) opts ++
          warnIssues (readEnvFile fs filePath) } := by
  unfold validate
  rw [if_pos he]

theorem count_requiredIssues_of_missing {env : EnvFile} {required : List Str} {k : Str}
    (hk : k ∈ required) (hnd : required.Nodup) (hmiss : alGet k env.vars = none) :
    (requiredIssues env required).count
      (⟨Severity.error, none, missingReqMsg k⟩ : Issue) = 1 := by
  unfold requiredIssues
  rw [List.count_filterMap]
  have hcong : ∀ a ∈ required,
      ((match alGet a env.vars with
        | none => some (⟨Severity.error, none, missingReqMsg a⟩ : Issue)
        | some v =>
          if v = [] then some (⟨Severity.error, alGet a env.lineInfo, reqEmptyMsg a⟩ : Issue)
          else none)
        == some (⟨Severity.error, none, missingReqMsg k⟩ : Issue)) = true ↔
        decide (a = k) = true := by
    intro a _
    rw [beq_iff_eq, decide_eq_true_eq]
    constructor
    · intro hfa
      cases halg : alGet a env.vars with
      | none =>
        simp only [halg, Option.some.injEq, Issue.mk.injEq, true_and] at hfa
        exact missingReqMsg_inj hfa
      | some v =>
        simp only [halg] at hfa
        by_cases hv : v = []
        · rw [if_pos hv] at hfa
          simp only [Option.some.injEq, Issue.mk.injEq, true_and] at hfa
          exact absurd hfa.2 (reqEmptyMsg_ne_missingReqMsg a k)
        · rw [if_neg hv] at hfa
          exact absurd hfa (by simp)
    · intro ha
      subst ha
      simp [hmiss]
  rw [List.countP_congr hcong]
  exact countP_eq_one_of_nodup_mem hnd hk

theorem count_requiredIssues_of_empty {env : EnvFile} {required : List Str} {k : Str}
    (hk : k ∈ required) (hnd : required.Nodup) (hempty : alGet k env.vars = some []) :
    (requiredIssues env required).count
      (⟨Severity.error, alGet k env.lineInfo, reqEmptyMsg k⟩ : Issue) = 1 := by
  unfold requiredIssues
  rw [List.count_filterMap]
  have hcong : ∀ a ∈ required,
      ((match alGet a env.vars with
        | none => some (⟨Severity.error, none, missingReqMsg a⟩ : Issue)
        | some v =>
          if v = [] then some (⟨Severity.error, alGet a env.lineInfo, reqEmptyMsg a⟩ : Issue)
          else none)
        == some (⟨Severity.error, alGet k env.lineInfo, reqEmptyMsg k⟩ : Issue)) = true ↔
        decide (a = k) = true := by
    intro a _
    rw [beq_iff_eq, decide_eq_true_eq]
    constructor
    · intro hfa
      cases halg : alGet a env.vars with
      | none =>
        simp only [halg, Option.some.injEq, Issue.mk.injEq, true_and] at hfa
        exact absurd hfa.2.symm (reqEmptyMsg_ne_missingReqMsg k a)
      | some v =>
        simp only [halg] at hfa
        by_cases hv : v = []
        · rw [if_pos hv] at hfa
          simp only [Option.some.injEq, Issue.mk.injEq, true_and] at hfa
          exact reqEmptyMsg_inj hfa.2
        · rw [if_neg hv] at hfa
          exact absurd hfa (by simp)
    · intro ha
      subst ha
      simp [hempty]
  rw [List.countP_congr hcong]
  exact countP_eq_one_of_nodup_mem hnd hk

theorem check_eq_of_examplePath (ext : Ext) (fs : FileSys) (envPath : Str)
    (opts : CheckOpts) (exPath : Str) (he : opts.examplePath = some exPath) :
    check ext fs envPath opts =
      { valid := (checkValidation ext fs envPath opts).valid &&
          (missingIssuesOf (compare fs envPath exPath)).isEmpty &&
          (!opts.strict || (emptyIssuesOf (compare fs envPath exPath) opts.strict).isEmpty) &&
          (!opts.noExtra || (extraIssuesOf (compare fs envPath exPath) opts.noExtra).isEmpty),
        issues := (checkValidation ext fs envPath opts).issues ++
          missingIssuesOf (compare fs envPath exPath) ++
          emptyIssuesOf (compare fs envPath exPath) opts.strict ++
          extraIssuesOf (compare fs envPath exPath) opts.noExtra,
        summary :=
          ⟨countErrors ((checkValidation ext fs envPath opts).issues ++
              missingIssuesOf (compare fs envPath exPath) ++
              emptyIssuesOf (compare fs envPath exPath) opts.strict ++
              extraIssuesOf (compare fs envPath exPath) opts.noExtra),
            countWarnings ((checkValidation ext fs envPath opts).issues ++
              missingIssuesOf (compare fs envPath exPath) ++
              emptyIssuesOf (compare fs envPath exPath) opts.strict ++
              extraIssuesOf (compare fs envPath exPath) opts.noExtra)⟩,
        env := (checkValidation ext fs envPath opts).env,
        comparison := some (compare fs envPath exPath) } := by
  unfold check
  rw [he]

theorem validate_valid_of_no_error (ext : Ext) (fs : FileSys) (filePath : Str)
    (opts : VOpts)
    (h : (validate ext fs filePath opts).issues.countP
      (fun i => i.type_ == Severity.error) = 0) :
    (validate ext fs filePath opts).valid = true := by
  unfold validate at *
  by_cases he : (readEnvFile fs filePath).exists_ = true
  · rw [if_pos he] at *
    dsimp only at *
    rw [List.countP_append, List.countP_append, List.countP_append,
      List.countP_append] at h
    have hpe : parseErrIssues (readEnvFile fs filePath) = [] :=
      eq_nil_of_no_error_count (fun i hi => (mem_parseErrIssues_shape hi).1)
        (by omega)
    have hre : requiredIssues (readEnvFile fs filePath) opts.required = [] :=
      eq_nil_of_no_error_count (fun i hi => (mem_requiredIssues_shape hi).1)
        (by omega)
    have htb : typeBlock ext (readEnvFile fs filePath) opts = [] :=
      eq_nil_of_no_error_count (fun i hi => (mem_typeBlock_shape hi).1)
        (by omega)
    rw [hpe, hre, htb]
    rfl
  · rw [if_neg he] at *
    dsimp only at h
    simp at h

theorem mem_compare_empty {fs : FileSys} {envPath exPath : Str} {k : Str}
    (hv : alGet k (readEnvFile fs envPath).vars = some [])
    (hex : k ∈ (readEnvFile fs exPath).vars.map Prod.fst) :
    (⟨k, alGet k (readEnvFile fs envPath).lineInfo⟩ : EmptyEntry) ∈
      (compare fs envPath exPath).empty := by
  have hkA : k ∈ (readEnvFile fs envPath).vars.map Prod.fst :=
    mem_of_alGet_eq_some hv
  have henvE : (readEnvFile fs envPath).exists_ = true := by
    cases hb : (readEnvFile fs envPath).exists_
    · rw [readEnvFile_vars_of_not_exists hb] at hkA
      simp at hkA
    · rfl
  have hexE : (readEnvFile fs exPath).exists_ = true := by
    cases hb : (readEnvFile fs exPath).exists_
    · rw [readEnvFile_vars_of_not_exists hb] at hex
      simp at hex
    · rfl
  unfold compare
  simp only [henvE, hexE, Bool.and_self, if_true]
  refine List.mem_map.mpr ⟨k, ?_, rfl⟩
  refine List.mem_filter.mpr ⟨hkA, ?_⟩
  rw [Bool.and_eq_true]
  exact ⟨decide_eq_true hex, by simp [hv]⟩

/-! ## Claim theorems -/

/-- C3: for `compare(envPath, examplePath)`, if either of the two files
does not exist, the returned `missing`, `extra` and `empty` lists are
all empty — the comparison short-circuits instead of failing or
reporting differences against the absent side. -/
theorem compare_missing_file_short_circuit (fs : FileSys) (envPath examplePath : Str)
    (h : (readEnvFile fs envPath).exists_ = false ∨
      (readEnvFile fs examplePath).exists_ = false) :
    (compare fs envPath examplePath).missing = [] ∧
    (compare fs envPath examplePath).extra = [] ∧
    (compare fs envPath examplePath).empty = [] :=
  compare_lists_nil fs envPath examplePath h

/-- Witness for C3 at a file system with no files. -/
theorem compare_missing_file_short_circuit_witness :
    ((readEnvFile fsEmpty "a".data).exists_ = false ∨
      (readEnvFile fsEmpty "b".data).exists_ = false) ∧
    ((compare fsEmpty "a".data "b".data).missing = [] ∧
     (compare fsEmpty "a".data "b".data).extra = [] ∧
     (compare fsEmpty "a".data "b".data).empty = []) :=
  ⟨Or.inl (by decide),
    compare_missing_file_short_circuit fsEmpty "a".data "b".data (Or.inl (by decide))⟩

/-- C5: parsing content that assigns the same key twice (`K=a\nK=b`)
keeps the later value and line number and records exactly one duplicate
warning whose message references the line of the earlier assignment
(line 1). -/
theorem parse_duplicate_key_law :
    alGet "K".data (parseEnv "K=a\nK=b".data).vars = some "b".data ∧
    alGet "K".data (parseEnv "K=a\nK=b".data).lineInfo = some 2 ∧
    (parseEnv "K=a\nK=b".data).warnings.length = 1 ∧
    ∀ w ∈ (parseEnv "K=a\nK=b".data).warnings,
      w.message = "Duplicate variable 'K' (previous at line 1)".data := by
  decide

/-- Counterexample to C7: the source tests `startsWith` on the *raw*
value, not the trimmed one, so the raw value `  "a #b"` — whose trimmed
form starts with a double quote — is nevertheless comment-stripped,
yielding `"a` instead of the unstripped resolution `a #b`. -/
theorem parseValue_comment_strip_cex :
    (jsTrim " \"a #b\"".data).head? = some '"' ∧
    parseValue " \"a #b\"".data = "\"a".data ∧
    quotePhase (jsTrim " \"a #b\"".data) " \"a #b\"".data = "a #b".data ∧
    parseValue " \"a #b\"".data ≠ quotePhase (jsTrim " \"a #b\"".data) " \"a #b\"".data := by
  decide

/-- C7 (amended): inline-comment stripping happens exactly when the
*raw, untrimmed* value does not start with a quote character (so a value
with whitespace before its opening quote is still stripped), and a `#`
not preceded by a space is never treated as a comment start. -/
theorem parseValue_comment_strip_raw_quote (raw : Str) :
    (raw.head? = some '"' ∨ raw.head? = some '\'' →
      parseValue raw = quotePhase (jsTrim raw) raw) ∧
    (¬(raw.head? = some '"' ∨ raw.head? = some '\'') →
      parseValue raw = quotePhase (jsTrim (stripInline raw)) raw) ∧
    ('#' ∉ raw → stripInline raw = raw) := by
  refine ⟨?_, ?_, ?_⟩
  · intro h
    unfold parseValue commentPhase
    rcases h with h | h <;> simp [h]
  · intro h
    push_neg at h
    unfold parseValue commentPhase
    simp [h.1, h.2]
  · intro h
    unfold stripInline
    rw [findSpaceHash_eq_none h]

/-- Witness for C7 (amended) at the unquoted raw value `a#b`, which is
not comment-stripped. -/
theorem parseValue_comment_strip_raw_quote_witness :
    (¬(("a#b".data : Str).head? = some '"' ∨ ("a#b".data : Str).head? = some '\'')) ∧
    parseValue "a#b".data = quotePhase (jsTrim (stripInline "a#b".data)) "a#b".data ∧
    ('#' : Char) ∉ ("a b".data : Str) ∧ stripInline "a b".data = "a b".data :=
  ⟨by decide, (parseValue_comment_strip_raw_quote "a#b".data).2.1 (by decide),
    by decide, (parseValue_comment_strip_raw_quote "a b".data).2.2 (by decide)⟩

/-- Counterexample to C8: `typeValidators.number` is
`isNaN(parseFloat(value))`, which accepts trailing garbage after a
numeric prefix and the value `Infinity`; the claim says both must be
rejected. -/
theorem validateType_number_cex :
    (validateType extNone "3abc".data "number".data).valid = true ∧
    (validateType extNone "Infinity".data "number".data).valid = true := by
  decide

/-- C8 (amended): `validateType(value, 'number')` returns `valid:true`
exactly for the empty string and for strings on which JS `parseFloat`
does not return `NaN` — strings that start, after optional whitespace
and an optional sign, with a digit, a dot followed by a digit, or the
keyword `Infinity`.  Trailing garbage after such a prefix and infinite
values therefore validate true. -/
theorem validateType_number_prefix (ext : Ext) (v : Str) :
    (validateType ext v "number".data).valid = true ↔
      v = [] ∨ jsParseFloatIsNaN v = false := by
  have ht : typeValidatorFor ext ("number".data.map Char.toLower) = some numberValidator := rfl
  unfold validateType
  rw [ht]
  by_cases h0 : v = []
  · simp [numberValidator, h0]
  · by_cases hn : jsParseFloatIsNaN v <;> simp [numberValidator, h0, hn]

/-- Counterexample to C9: a value consisting of the single character `"`
starts and ends with a double quote, so the source strips `slice(1,-1)`
and yields the empty string instead of passing the value through
unchanged. -/
theorem parseValue_single_quote_cex :
    jsTrim (commentPhase "\"".data) = "\"".data ∧
    parseValue "\"".data = [] ∧
    ("\"".data : Str) ≠ [] := by
  decide

/-- C9 (amended): after comment stripping and trimming, the outer
characters are removed exactly when the string starts and ends with `"`
or starts and ends with `'` — including the degenerate one-character
strings `"` and `'`, which are stripped to the empty string.  Genuinely
mismatched or unterminated values (different quote kinds at the two
ends, or a quote at one end only) pass through trimmed but otherwise
unchanged, and no error is raised. -/
theorem parseValue_quote_stripping (raw : Str) :
    (¬((jsTrim (commentPhase raw)).head? = some '"' ∧
        (jsTrim (commentPhase raw)).getLast? = some '"') →
     ¬((jsTrim (commentPhase raw)).head? = some '\'' ∧
        (jsTrim (commentPhase raw)).getLast? = some '\'') →
      parseValue raw = jsTrim (commentPhase raw)) ∧
    (((jsTrim (commentPhase raw)).head? = some '"' ∧
        (jsTrim (commentPhase raw)).getLast? = some '"') ∨
     ((jsTrim (commentPhase raw)).head? = some '\'' ∧
        (jsTrim (commentPhase raw)).getLast? = some '\'') →
      parseValue raw =
        if (jsTrim raw).head? = some '"' then
          applyEscapes (((jsTrim (commentPhase raw)).drop 1).dropLast)
        else ((jsTrim (commentPhase raw)).drop 1).dropLast) := by
  constructor
  · intro h1 h2
    unfold parseValue quotePhase
    rw [if_neg]
    simp only [Bool.or_eq_true, Bool.and_eq_true, decide_eq_true_eq]
    rintro (h | h)
    · exact h1 h
    · exact h2 h
  · intro h
    unfold parseValue quotePhase
    rw [if_pos]
    simp only [Bool.or_eq_true, Bool.and_eq_true, decide_eq_true_eq]
    exact h

/-- Witness for C9 (amended) at the mismatched value `'a"`, which passes
through unchanged. -/
theorem parseValue_quote_stripping_witness :
    (¬((jsTrim (commentPhase "'a\"".data)).head? = some '"' ∧
        (jsTrim (commentPhase "'a\"".data)).getLast? = some '"')) ∧
    (¬((jsTrim (commentPhase "'a\"".data)).head? = some '\'' ∧
        (jsTrim (commentPhase "'a\"".data)).getLast? = some '\'')) ∧
    parseValue "'a\"".data = jsTrim (commentPhase "'a\"".data) :=
  ⟨by decide, by decide,
    (parseValue_quote_stripping "'a\"".data).1 (by decide) (by decide)⟩

/-- C6: round-trip law — for every single-line string `v` with no `=`,
no `#`, no quote characters and no leading or trailing whitespace,
`parse("K=" + v).variables.K` equals `v` exactly. -/
theorem parse_roundtrip_plain_value (v : Str)
    (heq : '=' ∉ v) (hhash : '#' ∉ v) (hdq : '"' ∉ v) (hsq : '\'' ∉ v)
    (hnl : '\n' ∉ v)
    (hh : ∀ c, v.head? = some c → isJsWs c = false)
    (hl : ∀ c, v.getLast? = some c → isJsWs c = false) :
    alGet "K".data (parseEnv ("K=".data ++ v)).vars = some v := by
  have hcontent : ("K=".data ++ v : Str) = 'K' :: '=' :: v := rfl
  rw [hcontent]
  have hnl' : '\n' ∉ ('K' :: '=' :: v : Str) := by
    intro hm
    rcases List.mem_cons.mp hm with e | hm
    · exact absurd e (by decide)
    rcases List.mem_cons.mp hm with e | hm
    · exact absurd e (by decide)
    · exact hnl hm
  have hlast : ∀ c, (('K' :: '=' :: v) : Str).getLast? = some c → isJsWs c = false := by
    intro c hc
    rw [List.getLast?_cons_cons] at hc
    cases v with
    | nil =>
      simp only [List.getLast?_singleton, Option.some.injEq] at hc
      subst hc; decide
    | cons d ds =>
      rw [List.getLast?_cons_cons] at hc
      exact hl c hc
  have hhead' : ∀ c, (('K' :: '=' :: v) : Str).head? = some c → isJsWs c = false := by
    intro c hc
    simp only [List.head?_cons, Option.some.injEq] at hc
    subst hc
    decide
  have htrimline : jsTrim ('K' :: '=' :: v) = 'K' :: '=' :: v :=
    jsTrim_eq_self hhead' hlast
  have hidx : indexOfChar '=' ('K' :: '=' :: v) = some 1 := by
    rw [indexOfChar, if_neg (by decide : ¬('K' : Char) = '='),
      indexOfChar, if_pos rfl]
    rfl
  have hkey : jsTrim (('K' :: '=' :: v : Str).take 1) = "K".data := rfl
  have hval : parseValue (('K' :: '=' :: v : Str).drop (1 + 1)) = v :=
    parseValue_plain hdq hsq hhash hh hl
  unfold parseEnv
  rw [splitLines_eq_single hnl']
  show alGet "K".data (processLine ⟨[], [], [], [], [], none⟩ 1 ('K' :: '=' :: v)).vars =
    some v
  unfold processLine
  rw [htrimline]
  rw [if_neg (by simp : ¬(('K' :: '=' :: v : Str).head? = some '#'))]
  rw [if_neg (by simp : ¬(('K' :: '=' :: v : Str) = []))]
  rw [hidx]
  simp only [hkey, hval]
  rw [if_neg (by decide : ¬("K".data : Str) = [])]
  rw [if_pos (by decide : validKeyName "K".data = true)]
  show alGet "K".data (alUpsert "K".data v []) = some v
  rw [alUpsert_nil, alGet_cons_self]

/-- Witness for C6 at the plain value `abc`. -/
theorem parse_roundtrip_plain_value_witness :
    alGet "K".data (parseEnv ("K=".data ++ "abc".data)).vars = some "abc".data :=
  parse_roundtrip_plain_value "abc".data (by decide) (by decide) (by decide)
    (by decide) (by decide) (by decide) (by decide)

/-- C10: if `options.examplePath` names a nonexistent file,
`check(envPath, options)` returns the same issues, valid flag and
summary counts as the same call without `examplePath`: the absent
example contributes no type hints, the comparison adds no issues, and no
issue reports the missing example. -/
theorem check_absent_example_no_effect (ext : Ext) (fs : FileSys) (envPath exPath : Str)
    (opts : CheckOpts) (h : (readEnvFile fs exPath).exists_ = false) :
    C10Prop ext fs envPath exPath opts := by
  obtain ⟨hm, he, hem⟩ := compare_lists_nil fs envPath exPath (Or.inr h)
  unfold C10Prop check checkValidation
  simp only [h, Bool.false_eq_true, if_false]
  simp only [missingIssuesOf, emptyIssuesOf, extraIssuesOf, hm, he, hem,
    List.map_nil, ite_self, List.append_nil, List.isEmpty_nil, Bool.and_true,
    Bool.or_true, and_self]

/-- Witness for C10: the example path names no file. -/
theorem check_absent_example_no_effect_witness :
    C10Prop extNone fsAB "e".data "nope".data {} :=
  check_absent_example_no_effect extNone fsAB "e".data "nope".data {} (by decide)

/-- C4: on two existing files with env key set `A` and example key set
`B`, `missing` is exactly `B \ A`, `extra` is exactly `A \ B`, the two
cardinality laws `|missing| + |A ∩ B| = |B|` and `|extra| + |A ∩ B| =
|A|` hold, and every `empty` entry is a key of both sides whose env
value is the empty string — a key present only in env never appears in
`empty`. -/
theorem compare_key_set_arithmetic (fs : FileSys) (envPath examplePath : Str)
    (h1 : (readEnvFile fs envPath).exists_ = true)
    (h2 : (readEnvFile fs examplePath).exists_ = true) :
    C4Prop fs envPath examplePath := by
  have hnA := readEnvFile_nodup fs envPath
  have hnB := readEnvFile_nodup fs examplePath
  unfold C4Prop compare
  simp only [h1, h2, Bool.and_self, if_true]
  refine ⟨?_, ?_, ?_, ?_, ?_, ?_⟩
  · rw [List.map_map]
    exact List.map_id'' (fun x => rfl) _
  · rw [List.map_map]
    exact List.map_id'' (fun x => rfl) _
  · rw [List.length_map, Nat.add_comm]
    exact length_filter_add_length_filter_not _ _
  · rw [List.length_map,
      length_filter_mem_comm hnB hnA, Nat.add_comm]
    exact length_filter_add_length_filter_not _ _
  · intro e he
    obtain ⟨k, hk, hke⟩ := List.mem_map.mp he
    subst hke
    obtain ⟨hkA, hc⟩ := List.mem_filter.mp hk
    rw [Bool.and_eq_true] at hc
    refine ⟨hkA, ?_, ?_⟩
    · exact of_decide_eq_true hc.1
    · exact eq_of_beq hc.2
  · intro k hkA hkB hmem
    obtain ⟨e, he, hek⟩ := List.mem_map.mp hmem
    obtain ⟨k', hk', hke⟩ := List.mem_map.mp he
    subst hke
    obtain ⟨-, hc⟩ := List.mem_filter.mp hk'
    rw [Bool.and_eq_true] at hc
    have : k' ∈ (readEnvFile fs examplePath).vars.map Prod.fst := of_decide_eq_true hc.1
    rw [show k' = k from hek] at this
    exact hkB this

/-- C2: in `validate`, every required key that is absent yields exactly
one error issue, and every required key present with the empty value
yields exactly one error issue; a required empty key is never
additionally reported as an empty-value warning, even under
`noEmpty`. -/
theorem validate_required_missing_and_empty (ext : Ext) (fs : FileSys) (filePath : Str)
    (opts : VOpts) (k : Str) (hk : k ∈ opts.required) (hnd : opts.required.Nodup)
    (henv : (readEnvFile fs filePath).exists_ = true) :
    C2Prop ext fs filePath opts k := by
  have hval := validate_eq_of_exists ext fs filePath opts henv
  unfold C2Prop
  rw [hval]
  dsimp only
  constructor
  · intro hmiss
    have hpe : (parseErrIssues (readEnvFile fs filePath)).count
        (⟨Severity.error, none, missingReqMsg k⟩ : Issue) = 0 := by
      rw [List.count_eq_zero]
      intro hmem
      obtain ⟨-, e, he, hmsg⟩ := mem_parseErrIssues_shape hmem
      rcases readEnvFile_errors_ok henv e he with h' | h'
      · exact missingReqMsg_ne_missingEqMsg k (hmsg.trans h')
      · exact missingReqMsg_ne_emptyNameMsg k (hmsg.trans h')
    have hnem : (noEmptyIssues (readEnvFile fs filePath) opts.noEmpty opts.required).count
        (⟨Severity.error, none, missingReqMsg k⟩ : Issue) = 0 := by
      rw [List.count_eq_zero]
      intro hmem
      obtain ⟨hty, -⟩ := mem_noEmptyIssues_shape hmem
      exact Severity.noConfusion hty
    have htb : (typeBlock ext (readEnvFile fs filePath) opts).count
        (⟨Severity.error, none, missingReqMsg k⟩ : Issue) = 0 := by
      rw [List.count_eq_zero]
      intro hmem
      obtain ⟨-, k', m', v', hmsg⟩ := mem_typeBlock_shape hmem
      exact typeErrMsg_ne_missingReqMsg k' m' v' k hmsg.symm
    have hwarn : (warnIssues (readEnvFile fs filePath)).count
        (⟨Severity.error, none, missingReqMsg k⟩ : Issue) = 0 := by
      rw [List.count_eq_zero]
      intro hmem
      obtain ⟨hty, -⟩ := mem_warnIssues_shape hmem
      exact Severity.noConfusion hty
    constructor
    · rw [List.count_append, List.count_append, List.count_append, List.count_append,
        hpe, hnem, htb, hwarn, count_requiredIssues_of_missing hk hnd hmiss]
    · have hmm : (⟨Severity.error, none, missingReqMsg k⟩ : Issue) ∈
          requiredIssues (readEnvFile fs filePath) opts.required :=
        List.mem_filterMap.mpr ⟨k, hk, by simp [hmiss]⟩
      have hne := List.ne_nil_of_mem hmm
      simp [List.isEmpty_eq_false.mpr hne]
  · intro hempty
    have hpe : (parseErrIssues (readEnvFile fs filePath)).count
        (⟨Severity.error, alGet k (readEnvFile fs filePath).lineInfo, reqEmptyMsg k⟩ : Issue) = 0 := by
      rw [List.count_eq_zero]
      intro hmem
      obtain ⟨-, e, he, hmsg⟩ := mem_parseErrIssues_shape hmem
      rcases readEnvFile_errors_ok henv e he with h' | h'
      · exact reqEmptyMsg_ne_missingEqMsg k (hmsg.trans h')
      · exact reqEmptyMsg_ne_emptyNameMsg k (hmsg.trans h')
    have hnem : (noEmptyIssues (readEnvFile fs filePath) opts.noEmpty opts.required).count
        (⟨Severity.error, alGet k (readEnvFile fs filePath).lineInfo, reqEmptyMsg k⟩ : Issue) = 0 := by
      rw [List.count_eq_zero]
      intro hmem
      obtain ⟨hty, -⟩ := mem_noEmptyIssues_shape hmem
      exact Severity.noConfusion hty
    have htb : (typeBlock ext (readEnvFile fs filePath) opts).count
        (⟨Severity.error, alGet k (readEnvFile fs filePath).lineInfo, reqEmptyMsg k⟩ : Issue) = 0 := by
      rw [List.count_eq_zero]
      intro hmem
      obtain ⟨-, k', m', v', hmsg⟩ := mem_typeBlock_shape hmem
      exact typeErrMsg_ne_reqEmptyMsg k' m' v' k hmsg.symm
    have hwarn : (warnIssues (readEnvFile fs filePath)).count
        (⟨Severity.error, alGet k (readEnvFile fs filePath).lineInfo, reqEmptyMsg k⟩ : Issue) = 0 := by
      rw [List.count_eq_zero]
      intro hmem
      obtain ⟨hty, -⟩ := mem_warnIssues_shape hmem
      exact Severity.noConfusion hty
    refine ⟨?_, ?_, ?_⟩
    · rw [List.count_append, List.count_append, List.count_append, List.count_append,
        hpe, hnem, htb, hwarn, count_requiredIssues_of_empty hk hnd hempty]
    · have hmm : (⟨Severity.error, alGet k (readEnvFile fs filePath).lineInfo,
          reqEmptyMsg k⟩ : Issue) ∈
          requiredIssues (readEnvFile fs filePath) opts.required :=
        List.mem_filterMap.mpr ⟨k, hk, by simp [hempty]⟩
      have hne := List.ne_nil_of_mem hmm
      simp [List.isEmpty_eq_false.mpr hne]
    · intro l hmem
      rcases List.mem_append.mp hmem with hmem | hmem
      rotate_left
      · obtain ⟨-, w, hw, hmsg⟩ := mem_warnIssues_shape hmem
        rcases readEnvFile_warnings_ok henv w hw with ⟨k'', h'⟩ | ⟨k'', p'', h'⟩
        · exact unusualMsg_ne_emptyVarMsg k'' k (hmsg.trans h').symm
        · exact dupMsg_ne_emptyVarMsg k'' p'' k (hmsg.trans h').symm
      rcases List.mem_append.mp hmem with hmem | hmem
      rotate_left
      · obtain ⟨hty, -⟩ := mem_typeBlock_shape hmem
        exact Severity.noConfusion hty
      rcases List.mem_append.mp hmem with hmem | hmem
      rotate_left
      · obtain ⟨-, k', hk'req, hmsg⟩ := mem_noEmptyIssues_shape hmem
        exact hk'req (emptyVarMsg_inj hmsg ▸ hk)
      rcases List.mem_append.mp hmem with hmem | hmem
      · obtain ⟨hty, -⟩ := mem_parseErrIssues_shape hmem
        exact Severity.noConfusion hty
      · obtain ⟨hty, -⟩ := mem_requiredIssues_shape hmem
        exact Severity.noConfusion hty

/-- C1: for `check` with an existing example file, every shared key with
an empty env-side value yields a warning issue when `strict` is off
(leaving `valid` true if no other errors exist) and an error issue with
`valid:false` when `strict` is on; `strict` changes nothing else — the
issue lists of the two runs differ only in the severity of the block
derived from `comparison.empty`. -/
theorem check_strict_promotes_only_empty (ext : Ext) (fs : FileSys) (envPath exPath : Str)
    (opts : CheckOpts) (hex : (readEnvFile fs exPath).exists_ = true) :
    C1Prop ext fs envPath exPath opts := by
  have heqT := check_eq_of_examplePath ext fs envPath
    { opts with examplePath := some exPath, strict := true } exPath rfl
  have heqF := check_eq_of_examplePath ext fs envPath
    { opts with examplePath := some exPath, strict := false } exPath rfl
  have hvalsame : checkValidation ext fs envPath
      { opts with examplePath := some exPath, strict := true } =
      checkValidation ext fs envPath
      { opts with examplePath := some exPath, strict := false } := rfl
  rw [hvalsame] at heqT
  unfold C1Prop
  rw [heqT, heqF]
  dsimp only
  refine ⟨?_, ?_, ?_⟩
  · intro k hv hkex
    have hmemF : (⟨Severity.warning, alGet k (readEnvFile fs envPath).lineInfo,
        emptyVarMsg k⟩ : Issue) ∈
        emptyIssuesOf (compare fs envPath exPath) false :=
      List.mem_map.mpr ⟨⟨k, alGet k (readEnvFile fs envPath).lineInfo⟩,
        mem_compare_empty hv hkex, rfl⟩
    have hmemT : (⟨Severity.error, alGet k (readEnvFile fs envPath).lineInfo,
        emptyVarMsg k⟩ : Issue) ∈
        emptyIssuesOf (compare fs envPath exPath) true :=
      List.mem_map.mpr ⟨⟨k, alGet k (readEnvFile fs envPath).lineInfo⟩,
        mem_compare_empty hv hkex, rfl⟩
    refine ⟨?_, ?_, ?_⟩
    · exact List.mem_append.mpr (Or.inl (List.mem_append.mpr (Or.inr hmemF)))
    · exact List.mem_append.mpr (Or.inl (List.mem_append.mpr (Or.inr hmemT)))
    · have hneT : emptyIssuesOf (compare fs envPath exPath) true ≠ [] :=
        List.ne_nil_of_mem hmemT
      simp [List.isEmpty_eq_false.mpr hneT]
  · intro h0
    unfold countErrors at h0
    rw [List.countP_append, List.countP_append, List.countP_append] at h0
    have hv0 : (checkValidation ext fs envPath
        { opts with examplePath := some exPath, strict := false }).issues.countP
        (fun i => i.type_ == Severity.error) = 0 := by omega
    have hVvalid : (checkValidation ext fs envPath
        { opts with examplePath := some exPath, strict := false }).valid = true :=
      validate_valid_of_no_error ext fs envPath _ hv0
    have hMnil : missingIssuesOf (compare fs envPath exPath) = [] :=
      eq_nil_of_no_error_count (fun i hi => mem_missingIssuesOf_error hi) (by omega)
    have hXnil : extraIssuesOf (compare fs envPath exPath) opts.noExtra = [] :=
      eq_nil_of_no_error_count (fun i hi => mem_extraIssuesOf_error hi) (by omega)
    simp [hVvalid, hMnil, hXnil]
  · exact ⟨(checkValidation ext fs envPath
        { opts with examplePath := some exPath, strict := false }).issues ++
      missingIssuesOf (compare fs envPath exPath),
      extraIssuesOf (compare fs envPath exPath) opts.noExtra, rfl, rfl⟩

/-- Witness for C1 at a file pair with one shared empty variable. -/
theorem check_strict_promotes_only_empty_witness :
    C1Prop extNone fsAB "e".data "x".data {} :=
  check_strict_promotes_only_empty extNone fsAB "e".data "x".data {} (by decide)

/-- Witness for C2: `validate` with `required=['A']`, `noEmpty=true` on
a file whose `A` is empty. -/
theorem validate_required_missing_and_empty_witness :
    C2Prop extNone fsAB "e".data
      { required := ["A".data], noEmpty := true } "A".data :=
  validate_required_missing_and_empty extNone fsAB "e".data
    { required := ["A".data], noEmpty := true } "A".data
    (by decide) (by decide) (by decide)

/-- Witness for C4 at two existing one-variable files. -/
theorem compare_key_set_arithmetic_witness : C4Prop fsAB "e".data "x".data :=
  compare_key_set_arithmetic fsAB "e".data "x".data (by decide) (by decide)

end Envcheck
